import Mathlib

/-!
Verification of the postgres convenience layer (client wrapper, generic DAO,
migration runner) against its natural-language specification.

The Go sources are shallowly embedded: pure glue logic becomes Lean
functions, the stateful client wrapper becomes explicit state passing over a
small state record, fallible calls into the go-pg driver are abstracted as
`Except DriverError` oracle arguments, and Go `(T, error)` returns become
`Except`.  Driver/ORM internals (SQL generation, row mapping) are outside
this repository and are represented only by their observable outcomes.
-/

/-- Driver-level (go-pg) errors.  `noRows` and `multiRows` model
`pg.ErrNoRows` and `pg.ErrMultiRows`; `other` covers every remaining driver
error. -/
inductive DriverError where
  | noRows
  | multiRows
  | other : String → DriverError
deriving DecidableEq

/-- Application error kinds. Modelled from the spec: the repository's
`errors` package (not under src/) exposes a small set of application error
kinds (not-found, bad-request, internal). -/
inductive AppError where
  | notFound
  | badRequest : String → AppError
  | internal : String → AppError
deriving DecidableEq

/-- Modelled from the spec: the translation helper `pkgerr.Convert` of the
`errors` package (not under src/) converts a driver error into one of the
application error kinds.  The dao tests show `Convert pg.ErrNoRows` is the
not-found kind (`pkgerr.IsNotFound` holds after an empty `FindOne`). -/
def Convert : DriverError → AppError
  | DriverError.noRows => AppError.notFound
  | DriverError.multiRows => AppError.internal "multi rows"
  | DriverError.other s => AppError.internal s

/-- Context cancellation errors, the possible non-nil values of `ctx.Err()`. -/
inductive CtxError where
  | canceled
  | deadlineExceeded
deriving DecidableEq

/-- An error as returned by a DAO operation: either converted to an
application kind, or the driver's error passed through raw, or a context
error returned as-is. -/
inductive OpError where
  | app : AppError → OpError
  | raw : DriverError → OpError
  | ctxCancelled : CtxError → OpError
deriving DecidableEq

/-- True when the error is one of the converted application kinds. -/
def isAppError : OpError → Bool
  | OpError.app _ => true
  | _ => false

/-- Modelled from the spec: `Convert` applied to an error that is already an
application error keeps it; a raw driver error is translated; a context
error is folded into the internal kind. -/
def ConvertAny : OpError → AppError
  | OpError.app a => a
  | OpError.raw e => Convert e
  | OpError.ctxCancelled _ => AppError.internal "context"

/-- Transactions are abstracted by an identifier. -/
abbrev Tx := Nat

/-- Keys of a request context, `wrapper.go` declares the globals `TxKey` and
`LoggerKey`; `otherKey` covers unrelated context keys. -/
inductive CtxKey where
  | txKey
  | loggerKey
  | otherKey : Nat → CtxKey
deriving DecidableEq

/-- Values stored in a request context: a transaction (stored under
`TxKey`), or anything else. -/
inductive CtxVal where
  | txVal : Tx → CtxVal
  | otherVal : Nat → CtxVal
deriving DecidableEq

/-- A Go `context.Context` viewed as its chain of key/value pairs, most
recently added first (`context.WithValue` wraps the parent). -/
abbrev Context := List (CtxKey × CtxVal)

/-- Embeds `ctx.Value(k)`: the most recently stored value under `k`. -/
def ctxValue (ctx : Context) (k : CtxKey) : Option CtxVal :=
  match ctx with
  | [] => none
  | p :: ps => if p.1 = k then some p.2 else ctxValue ps k

/-- Embeds `context.WithValue(ctx, k, v)`. -/
def contextWithValue (ctx : Context) (k : CtxKey) (v : CtxVal) : Context :=
  (k, v) :: ctx

/-- Embeds `newTxContext` (dao.go): stores the transaction in the request
context under `TxKey`. -/
def newTxContext (ctx : Context) (tx : Tx) : Context :=
  contextWithValue ctx CtxKey.txKey (CtxVal.txVal tx)

/-- Embeds `getTxFromContext` (wrapper.go): reads the value under `TxKey`
and type-asserts it to a transaction, returning nil (`none`) otherwise. -/
def getTxFromContext (ctx : Context) : Option Tx :=
  match ctxValue ctx CtxKey.txKey with
  | some (CtxVal.txVal t) => some t
  | _ => none

/-- The `dbWrapper` struct (wrapper.go): current context, optional active
transaction, and the optional wrapped query processor.  The pooled
connection itself lives in the driver and is not part of the glue state. -/
structure Wrapper where
  ctx : Context
  tx : Option Tx
  wrappedProcessor : Option Nat
deriving DecidableEq

/-- Embeds `dbWrapper.WithContext`: stores the context and loads the active
transaction from it; nothing else changes. -/
def withContext (w : Wrapper) (ctx : Context) : Wrapper :=
  { w with ctx := ctx, tx := getTxFromContext ctx }

/-- The `DAO` struct (dao.go): a client reference and the two configurable
timestamp field names. -/
structure DAOState where
  client : Nat
  updatedField : String
  deletedField : String
deriving DecidableEq

/-- Embeds `dao.New`: field names default to "updated" and "deleted". -/
def DAONew (c : Nat) : DAOState :=
  ⟨c, "updated", "deleted"⟩

/-- Embeds `DAO.SetUpdatedField`: empty argument is ignored. -/
def setUpdatedField (d : DAOState) (fieldName : String) : DAOState :=
  if fieldName = "" then d else { d with updatedField := fieldName }

/-- Embeds `DAO.SetDeletedField`: empty argument is ignored. -/
def setDeletedField (d : DAOState) (fieldName : String) : DAOState :=
  if fieldName = "" then d else { d with deletedField := fieldName }

/-- Go map update `rows[k] = v` on a string-keyed map, viewed as an
association list: the binding for an existing key is replaced, a fresh key
is added.  Go's map iteration order is unspecified; the embedding fixes
first-insertion order, and the theorems below only use the map's content. -/
def mapInsertGo {α : Type} (rows : List (String × α)) (k : String) (v : α) :
    List (String × α) :=
  match rows with
  | [] => [(k, v)]
  | p :: ps => if p.1 = k then (k, v) :: ps else p :: mapInsertGo ps k v

/-- Go map read `rows[k]` on the association-list view. -/
def alookup {α : Type} (rows : List (String × α)) (k : String) : Option α :=
  match rows with
  | [] => none
  | p :: ps => if p.1 = k then some p.2 else alookup ps k

/-- Embeds `GetUniqueModels` (dao.go): every model is written into a map
under the key `f model`, so a later model with the same key overwrites an
earlier one, and the map's values are collected. -/
def GetUniqueModels {α : Type} (models : List α) (f : α → String) : List α :=
  (models.foldl (fun rows m => mapInsertGo rows (f m) m) []).map Prod.snd

/-- Embeds the composite key built by `DAO.Upsert` (dao.go): the rendered
values of the Go fields named by `goNames`, joined with "_".
`fieldOf m g` abstracts `fmt.Sprint(reflect.ValueOf(m).Elem().FieldByName(g))`. -/
def upsertKey {α : Type} (goNames : List String) (fieldOf : α → String → String)
    (m : α) : String :=
  String.intercalate "_" (goNames.map (fieldOf m))

/-- The de-duplicated model list `DAO.Upsert` builds for a slice argument. -/
def upsertUniqueModels {α : Type} (goNames : List String)
    (fieldOf : α → String → String) (recs : List α) : List α :=
  GetUniqueModels recs (upsertKey goNames fieldOf)

/-- The reflected kind of the `recs` argument of `DAO.Upsert`: a slice, a
pointer to a struct, or anything else (a non-pointer struct value). -/
inductive RecsArg (α : Type) where
  | slice : List α → RecsArg α
  | ptr : α → RecsArg α
  | otherKind : RecsArg α

/-- Embeds `DAO.Upsert` (dao.go).  `goNames` abstracts the ORM table
metadata lookup (`orm.GetTable` / `FieldsMap`), `insertRes` the outcome of
the final `Insert`.  The overall `none` marks the panic on an empty slice:
`getType` indexes element 0 before the emptiness check runs.  Note the
final insert's driver error is returned without `pkgerr.Convert`. -/
def upsert {α : Type} (goNames : List String) (fieldOf : α → String → String)
    (keys : List String) (recs : RecsArg α) (insertRes : Except DriverError Nat) :
    Option (Except OpError (List α × Nat)) :=
  if keys.isEmpty then
    some (Except.error (OpError.app (AppError.badRequest "keys cannot be empty")))
  else
    match recs with
    | RecsArg.otherKind =>
      some (Except.error (OpError.app
        (AppError.badRequest "recs must be slice or pointer to struct")))
    | RecsArg.slice [] => none
    | RecsArg.slice (x :: xs) =>
      let models := upsertUniqueModels goNames fieldOf (x :: xs)
      if models.isEmpty then
        some (Except.error (OpError.app (AppError.badRequest "models cannot be empty")))
      else
        match insertRes with
        | Except.error e => some (Except.error (OpError.raw e))
        | Except.ok n => some (Except.ok (models, n))
    | RecsArg.ptr m =>
      match insertRes with
      | Except.error e => some (Except.error (OpError.raw e))
      | Except.ok n => some (Except.ok ([m], n))

/-- The last element of a list satisfying `p`, used to state which element
takes precedence in the de-duplication. -/
def lastSuchThat {α : Type} (p : α → Bool) : List α → Option α
  | [] => none
  | x :: xs =>
    match lastSuchThat p xs with
    | some v => some v
    | none => if p x then some x else none

/-- Decidable equality for `Except`, needed to evaluate the embeddings on
concrete inputs. -/
instance exceptDecEq {ε α : Type} [DecidableEq ε] [DecidableEq α] :
    DecidableEq (Except ε α) := fun x y =>
  match x, y with
  | Except.error a, Except.error b =>
    if h : a = b then isTrue (h ▸ rfl) else isFalse (fun hh => h (Except.error.inj hh))
  | Except.error _, Except.ok _ => isFalse (fun hh => Except.noConfusion hh)
  | Except.ok _, Except.error _ => isFalse (fun hh => Except.noConfusion hh)
  | Except.ok a, Except.ok b =>
    if h : a = b then isTrue (h ▸ rfl) else isFalse (fun hh => h (Except.ok.inj hh))

/-- The transaction-relevant state of a `dbWrapper`: the stored transaction
(`w.tx`) and a counter of successful `conn.Begin()` calls, used to state
that no second transaction is begun while one is active. -/
structure TxState where
  storedTx : Option Tx
  begun : Nat
deriving DecidableEq

/-- Embeds `dbWrapper.StartTx` (wrapper.go): on `conn.Begin()` success the
new transaction is stored; on failure the state is unchanged. -/
def stStartTx (s : TxState) (beginRes : Except DriverError Tx) :
    TxState × Except DriverError Tx :=
  match beginRes with
  | Except.error e => (s, Except.error e)
  | Except.ok t => (⟨some t, s.begun + 1⟩, Except.ok t)

/-- Embeds `dbWrapper.Commit` (wrapper.go): the stored transaction is
cleared whether or not the driver's commit errors.  With no stored
transaction the method dereferences a nil `*pg.Tx` and panics (`none`). -/
def stCommit (s : TxState) (commitRes : Option DriverError) :
    Option (TxState × Option DriverError) :=
  match s.storedTx with
  | none => none
  | some _ => some (⟨none, s.begun⟩, commitRes)

/-- Embeds `dbWrapper.Rollback` (wrapper.go): the stored transaction is
cleared whether or not the driver's rollback errors; panics on nil. -/
def stRollback (s : TxState) (rollbackRes : Option DriverError) :
    Option (TxState × Option DriverError) :=
  match s.storedTx with
  | none => none
  | some _ => some (⟨none, s.begun⟩, rollbackRes)

/-- The environment of one `DAO.WithTX` call: the outcome of `StartTx`, the
error returned by the passed function, the value of `ctx.Err()` at the
rollback check, and the driver outcomes of commit and rollback.  The
rollback error is only logged by the code, so it does not influence the
result. -/
structure WithTXEnv where
  startTxRes : Except DriverError Tx
  fnErr : Option OpError
  ctxErr : Option CtxError
  commitErr : Option DriverError
  rollbackErr : Option DriverError
deriving DecidableEq

/-- How a `DAO.WithTX` call ended: the function ran directly because a
transaction was already active, `StartTx` failed, `Commit` was invoked, or
`Rollback` was invoked. -/
inductive TxOutcome where
  | ranDirectly
  | beginFailed
  | committed
  | rolledBack
deriving DecidableEq

/-- Embeds `DAO.WithTX` (dao.go) over the wrapper state: with an active
transaction the function runs directly; otherwise a transaction is started,
and it is rolled back when the function errs or the context is cancelled
(the context error taking precedence in the returned value) and committed
otherwise.  Both commit and rollback clear the stored transaction. -/
def withTX (s : TxState) (e : WithTXEnv) : TxState × TxOutcome × Option OpError :=
  match s.storedTx with
  | some _ => (s, TxOutcome.ranDirectly, e.fnErr)
  | none =>
    match e.startTxRes with
    | Except.error err => (s, TxOutcome.beginFailed, some (OpError.app (Convert err)))
    | Except.ok _ =>
      if e.fnErr.isSome || e.ctxErr.isSome then
        (⟨none, s.begun + 1⟩, TxOutcome.rolledBack,
          match e.ctxErr with
          | some c => some (OpError.ctxCancelled c)
          | none => e.fnErr)
      else
        (⟨none, s.begun + 1⟩, TxOutcome.committed,
          match e.commitErr with
          | some err => some (OpError.app (Convert err))
          | none => none)

/-- The transaction-management operations a caller can run on one Client. -/
inductive ClientOp where
  | opStartTx : Except DriverError Tx → ClientOp
  | opCommit : Option DriverError → ClientOp
  | opRollback : Option DriverError → ClientOp
  | opWithTX : WithTXEnv → ClientOp
deriving DecidableEq

/-- One step of the Client transaction state machine; `none` is a panic. -/
def stStep (s : TxState) : ClientOp → Option TxState
  | ClientOp.opStartTx r => some (stStartTx s r).1
  | ClientOp.opCommit r =>
    match stCommit s r with
    | none => none
    | some x => some x.1
  | ClientOp.opRollback r =>
    match stRollback s r with
    | none => none
    | some x => some x.1
  | ClientOp.opWithTX e => some (withTX s e).1

/-- Runs a sequence of transaction-management operations. -/
def stRun (s : TxState) : List ClientOp → Option TxState
  | [] => some s
  | op :: ops =>
    match stStep s op with
    | none => none
    | some s2 => stRun s2 ops

/-- The number of transactions the Client holds active: its single
transaction slot is either filled or empty. -/
def activeTxCount (s : TxState) : Nat :=
  match s.storedTx with
  | some _ => 1
  | none => 0

/-- Embeds `DAO.FindOne` (dao.go): a driver error is converted. -/
def findOne (driverRes : Except DriverError Unit) : Except OpError Unit :=
  match driverRes with
  | Except.error e => Except.error (OpError.app (Convert e))
  | Except.ok u => Except.ok u

/-- Embeds `DAO.FindList` (dao.go): a driver error is converted. -/
def findList (driverRes : Except DriverError Unit) : Except OpError Unit :=
  match driverRes with
  | Except.error e => Except.error (OpError.app (Convert e))
  | Except.ok u => Except.ok u

/-- Embeds `DAO.FindListWithTotal` (dao.go): on a driver error the total is
dropped (0 in Go) and the error converted. -/
def findListWithTotal (driverRes : Except DriverError Nat) : Except OpError Nat :=
  match driverRes with
  | Except.error e => Except.error (OpError.app (Convert e))
  | Except.ok n => Except.ok n

/-- Embeds `DAO.GetTotal` (dao.go): a driver error is converted. -/
def getTotal (driverRes : Except DriverError Nat) : Except OpError Nat :=
  match driverRes with
  | Except.error e => Except.error (OpError.app (Convert e))
  | Except.ok n => Except.ok n

/-- Embeds `DAO.Insert` (dao.go): a driver error is converted. -/
def insertRecs (driverRes : Except DriverError Unit) : Except OpError Unit :=
  match driverRes with
  | Except.error e => Except.error (OpError.app (Convert e))
  | Except.ok u => Except.ok u

/-- Embeds `DAO.Update` (dao.go): the configured updated field is appended
to the column list and a driver error is converted; the columns actually
updated are returned alongside the driver result. -/
def updateRec (updatedField : String) (columns : List String)
    (driverRes : Except DriverError Nat) : Except OpError (List String × Nat) :=
  match driverRes with
  | Except.error e => Except.error (OpError.app (Convert e))
  | Except.ok n => Except.ok (columns ++ [updatedField], n)

/-- Embeds `DAO.SoftDelete` (dao.go): delegates to `Update` on the deleted
field and converts a (then already converted) error once more. -/
def softDelete (updatedField deletedField : String)
    (driverRes : Except DriverError Nat) : Except OpError (List String × Nat) :=
  match updateRec updatedField [deletedField] driverRes with
  | Except.error e => Except.error (OpError.app (ConvertAny e))
  | Except.ok x => Except.ok x

/-- Embeds `DAO.HardDelete` (dao.go): a driver error is converted. -/
def hardDelete (driverRes : Except DriverError Unit) : Except OpError Unit :=
  match driverRes with
  | Except.error e => Except.error (OpError.app (Convert e))
  | Except.ok u => Except.ok u

/-- Embeds `DAO.HardDeleteWhere` (dao.go): a driver error is converted. -/
def hardDeleteWhere (driverRes : Except DriverError Nat) : Except OpError Nat :=
  match driverRes with
  | Except.error e => Except.error (OpError.app (Convert e))
  | Except.ok n => Except.ok n

/-- A Go `interface{}` value as passed in `setFieldValuePairs`: a string, a
time value (`time.Now()` result), or some other value. -/
inductive GoVal where
  | str : String → GoVal
  | timeVal : Nat → GoVal
  | intVal : Int → GoVal
deriving DecidableEq

/-- Embeds the `UpdateWhere` loop over `setFieldValuePairs` (dao.go): two
elements at a time, the first of each pair must be a string (else an
internal error is returned before any query runs, the Go message's dynamic
parts are abstracted); the collected pairs are the `Set` clauses.  The
one-element case is unreachable behind the caller's parity check. -/
def setPairs : List GoVal → Except OpError (List (String × GoVal))
  | [] => Except.ok []
  | GoVal.str c :: v :: rest =>
    match setPairs rest with
    | Except.error e => Except.error e
    | Except.ok ps => Except.ok ((c, v) :: ps)
  | _ :: _ :: _ => Except.error (OpError.app (AppError.internal "field must be string"))
  | [_] => Except.ok []

/-- The field/value pairing of a well-formed `setFieldValuePairs` list,
used to state what `UpdateWhere` sets. -/
def toPairs : List GoVal → List (String × GoVal)
  | GoVal.str c :: v :: rest => (c, v) :: toPairs rest
  | _ => []

/-- Decides that every element at an even index is a string. -/
def evenIdxStrings : List GoVal → Bool
  | [] => true
  | [GoVal.str _] => true
  | [_] => false
  | GoVal.str _ :: _ :: rest => evenIdxStrings rest
  | _ :: _ :: _ => false

/-- Embeds `DAO.UpdateWhere` (dao.go): odd-length pair lists are rejected
with an internal error before anything runs, then the configured updated
field paired with the current time is appended, the pairs are turned into
`Set` clauses, and only then the update query executes (`driverRes`); its
error is converted. -/
def updateWhere (updatedField : String) (pairs : List GoVal) (now : Nat)
    (driverRes : Except DriverError Nat) :
    Except OpError (List (String × GoVal) × Nat) :=
  if pairs.length % 2 = 1 then
    Except.error (OpError.app (AppError.internal "setFieldValuePairs must be even"))
  else
    match setPairs (pairs ++ [GoVal.str updatedField, GoVal.timeVal now]) with
    | Except.error e => Except.error e
    | Except.ok sets =>
      match driverRes with
      | Except.error e => Except.error (OpError.app (Convert e))
      | Except.ok n => Except.ok (sets, n)

/-- Embeds `dbWrapper.assertOneRow` (wrapper.go) over the signed Go int
returned by `RowsAffected`. -/
def assertOneRow (affected : Int) : Option DriverError :=
  if affected = 0 then some DriverError.noRows
  else if affected > 1 then some DriverError.multiRows
  else none

/-- Embeds `dbWrapper.ExecOne` (wrapper.go): the result of `Exec`, checked
by `assertOneRow` on its affected-row count.  The result value is its
affected-row count. -/
def execOne (execRes : Except DriverError Int) : Except DriverError Int :=
  match execRes with
  | Except.error e => Except.error e
  | Except.ok res =>
    match assertOneRow res with
    | some e => Except.error e
    | none => Except.ok res

/-- Embeds `dbWrapper.QueryOne` (wrapper.go): like `ExecOne` over `Query`. -/
def queryOne (queryRes : Except DriverError Int) : Except DriverError Int :=
  match queryRes with
  | Except.error e => Except.error e
  | Except.ok res =>
    match assertOneRow res with
    | some e => Except.error e
    | none => Except.ok res

/-- Opaque identifiers for the arguments forwarded by the wrapper. -/
abbrev Arg := Nat

/-- The receiver a wrapper method forwards to: the active transaction or
the pooled connection. -/
inductive Target where
  | onTx : Tx → Target
  | onConn : Target
deriving DecidableEq

/-- One forwarded driver call: its receiver, the method chain invoked on
it, and the arguments in order. -/
structure DriverCall where
  target : Target
  chain : List String
  args : List Arg
deriving DecidableEq

/-- The receiver the wrapper's tx-or-conn dispatch selects. -/
def dispatchTarget (w : Wrapper) : Target :=
  match w.tx with
  | some t => Target.onTx t
  | none => Target.onConn

/-- Embeds `dbWrapper.Select` (wrapper.go). -/
def selectCall (w : Wrapper) (model : Arg) : DriverCall :=
  match w.tx with
  | some t => ⟨Target.onTx t, ["Model", "WherePK", "Select"], [model]⟩
  | none => ⟨Target.onConn, ["Model", "WherePK", "Select"], [model]⟩

/-- Embeds `dbWrapper.Insert` (wrapper.go). -/
def insertCall (w : Wrapper) (models : List Arg) : DriverCall :=
  match w.tx with
  | some t => ⟨Target.onTx t, ["Model", "Insert"], models⟩
  | none => ⟨Target.onConn, ["Model", "Insert"], models⟩

/-- Embeds `dbWrapper.Update` (wrapper.go). -/
def updateCall (w : Wrapper) (model : Arg) : DriverCall :=
  match w.tx with
  | some t => ⟨Target.onTx t, ["Model", "WherePK", "Update"], [model]⟩
  | none => ⟨Target.onConn, ["Model", "WherePK", "Update"], [model]⟩

/-- Embeds `dbWrapper.Delete` (wrapper.go). -/
def deleteCall (w : Wrapper) (model : Arg) : DriverCall :=
  match w.tx with
  | some t => ⟨Target.onTx t, ["Model", "WherePK", "Delete"], [model]⟩
  | none => ⟨Target.onConn, ["Model", "WherePK", "Delete"], [model]⟩

/-- Embeds `dbWrapper.ForceDelete` (wrapper.go). -/
def forceDeleteCall (w : Wrapper) (values : Arg) : DriverCall :=
  match w.tx with
  | some t => ⟨Target.onTx t, ["Model", "WherePK", "ForceDelete"], [values]⟩
  | none => ⟨Target.onConn, ["Model", "WherePK", "ForceDelete"], [values]⟩

/-- The processor closure built inside `dbWrapper.Exec` (wrapper.go). -/
def execProcessor (w : Wrapper) (query : Arg) (params : List Arg) : DriverCall :=
  match w.tx with
  | some t => ⟨Target.onTx t, ["Exec"], query :: params⟩
  | none => ⟨Target.onConn, ["Exec"], query :: params⟩

/-- How `Exec`/`Query` route the processor: directly, or through the
optional wrapped processor installed by an option. -/
inductive ExecRoute where
  | direct : DriverCall → ExecRoute
  | viaProcessor : Nat → DriverCall → ExecRoute
deriving DecidableEq

/-- Embeds `dbWrapper.Exec` (wrapper.go): with no wrapped processor the
processor runs directly. -/
def execCall (w : Wrapper) (query : Arg) (params : List Arg) : ExecRoute :=
  match w.wrappedProcessor with
  | none => ExecRoute.direct (execProcessor w query params)
  | some p => ExecRoute.viaProcessor p (execProcessor w query params)

/-- The processor closure built inside `dbWrapper.Query` (wrapper.go). -/
def queryProcessor (w : Wrapper) (model query : Arg) (params : List Arg) : DriverCall :=
  match w.tx with
  | some t => ⟨Target.onTx t, ["Query"], model :: query :: params⟩
  | none => ⟨Target.onConn, ["Query"], model :: query :: params⟩

/-- Embeds `dbWrapper.Query` (wrapper.go). -/
def queryCall (w : Wrapper) (model query : Arg) (params : List Arg) : ExecRoute :=
  match w.wrappedProcessor with
  | none => ExecRoute.direct (queryProcessor w model query params)
  | some p => ExecRoute.viaProcessor p (queryProcessor w model query params)

/-- Embeds `dbWrapper.CopyFrom` (wrapper.go). -/
def copyFromCall (w : Wrapper) (r query : Arg) (params : List Arg) : DriverCall :=
  match w.tx with
  | some t => ⟨Target.onTx t, ["CopyFrom"], r :: query :: params⟩
  | none => ⟨Target.onConn, ["CopyFrom"], r :: query :: params⟩

/-- Embeds `dbWrapper.CopyTo` (wrapper.go). -/
def copyToCall (w : Wrapper) (iw query : Arg) (params : List Arg) : DriverCall :=
  match w.tx with
  | some t => ⟨Target.onTx t, ["CopyTo"], iw :: query :: params⟩
  | none => ⟨Target.onConn, ["CopyTo"], iw :: query :: params⟩

/-- Embeds `dbWrapper.FormatQuery` (wrapper.go). -/
def formatQueryCall (w : Wrapper) (b query : Arg) (params : List Arg) : DriverCall :=
  match w.tx with
  | some t => ⟨Target.onTx t, ["Formatter", "FormatQuery"], b :: query :: params⟩
  | none => ⟨Target.onConn, ["Formatter", "FormatQuery"], b :: query :: params⟩

/-- Embeds `dbWrapper.Formatter` (wrapper.go). -/
def formatterCall (w : Wrapper) : DriverCall :=
  match w.tx with
  | some t => ⟨Target.onTx t, ["Formatter"], []⟩
  | none => ⟨Target.onConn, ["Formatter"], []⟩

/-- Embeds `dbWrapper.Context` (wrapper.go). -/
def contextCall (w : Wrapper) : DriverCall :=
  match w.tx with
  | some t => ⟨Target.onTx t, ["Context"], []⟩
  | none => ⟨Target.onConn, ["Context"], []⟩

/-- Embeds `dbWrapper.ModelContext` (wrapper.go). -/
def modelContextCall (w : Wrapper) (c : Arg) (models : List Arg) : DriverCall :=
  match w.tx with
  | some t => ⟨Target.onTx t, ["ModelContext"], c :: models⟩
  | none => ⟨Target.onConn, ["ModelContext"], c :: models⟩

/-- Embeds `dbWrapper.ExecContext` (wrapper.go). -/
def execContextCall (w : Wrapper) (c query : Arg) (params : List Arg) : DriverCall :=
  match w.tx with
  | some t => ⟨Target.onTx t, ["ExecContext"], c :: query :: params⟩
  | none => ⟨Target.onConn, ["ExecContext"], c :: query :: params⟩

/-- Embeds `dbWrapper.ExecOneContext` (wrapper.go). -/
def execOneContextCall (w : Wrapper) (c query : Arg) (params : List Arg) : DriverCall :=
  match w.tx with
  | some t => ⟨Target.onTx t, ["ExecOneContext"], c :: query :: params⟩
  | none => ⟨Target.onConn, ["ExecOneContext"], c :: query :: params⟩

/-- Embeds `dbWrapper.QueryContext` (wrapper.go). -/
def queryContextCall (w : Wrapper) (c model query : Arg) (params : List Arg) :
    DriverCall :=
  match w.tx with
  | some t => ⟨Target.onTx t, ["QueryContext"], c :: model :: query :: params⟩
  | none => ⟨Target.onConn, ["QueryContext"], c :: model :: query :: params⟩

/-- Embeds `dbWrapper.QueryOneContext` (wrapper.go). -/
def queryOneContextCall (w : Wrapper) (c model query : Arg) (params : List Arg) :
    DriverCall :=
  match w.tx with
  | some t => ⟨Target.onTx t, ["QueryOneContext"], c :: model :: query :: params⟩
  | none => ⟨Target.onConn, ["QueryOneContext"], c :: model :: query :: params⟩

/-- Embeds the `WithLogger` option (option file): it registers a query hook
on the pooled connection and leaves the wrapper fields alone. -/
def withLoggerOption : Wrapper → Wrapper :=
  fun w => w

/-- Embeds `NewDbClient` (wrapper.go): a fresh wrapper with no transaction
and no wrapped processor, run through the options. -/
def newDbClient (opts : List (Wrapper → Wrapper)) : Wrapper :=
  opts.foldl (fun w o => o w) ⟨[], none, none⟩

/-- Embeds `strings.TrimPrefix` at the character level: remove `pre` once
if it leads `s` (the uses below only trim the ASCII prefixes "." and "/"). -/
def trimPfx (s pre : String) : String :=
  if pre.data.isPrefixOf s.data then String.mk (s.data.drop pre.data.length) else s

/-- The `Migrator` struct (migrate package): source path, DSN and the
schemes to clean; the logger plays no role in the data flow. -/
structure Migrator where
  path : String
  dsn : String
  cleanScheme : List String
deriving DecidableEq

/-- Embeds `NewMigrator` (migrate package): the source is
`file://` + the path trimmed of one leading "." and then one leading "/". -/
def newMigrator (path dsn : String) (opts : List (Migrator → Migrator)) : Migrator :=
  opts.foldl (fun m o => o m)
    ⟨"file://" ++ trimPfx (trimPfx path ".") "/", dsn, []⟩

/-- Embeds the `WithClean` option (migrate package). -/
def withCleanOption (schemes : List String) : Migrator → Migrator :=
  fun m => { m with cleanScheme := schemes }

/-- The migrate package's `driverName` constant. -/
def driverName : String := "postgres"

/-- The invocation handed to the migration engine
(`migrate.NewWithDatabaseInstance`): the source URL, the driver name, and
the DSN the database handle was opened with. -/
structure EngineCall where
  sourceURL : String
  driver : String
  dsn : String
deriving DecidableEq

/-- Embeds `Migrator.Run` (migrate package) up to the engine hand-off: the
DSN is given to `sql.Open`, the optional schema cleaning runs, the postgres
driver is built on that handle, and the engine receives the migrator's
source path together with that driver.  `none` means Run returned before
reaching the engine. -/
def migratorRun (m : Migrator) (openOk cleanOk driverOk : Bool) : Option EngineCall :=
  if openOk then
    if m.cleanScheme.isEmpty || cleanOk then
      if driverOk then some ⟨m.path, driverName, m.dsn⟩ else none
    else none
  else none

/-- States the claim's words: `p` with one leading occurrence of the
character `c` removed. -/
def removeOneLeading (c : Char) (p : String) : String :=
  match p.data with
  | [] => p
  | x :: rest => if x = c then String.mk rest else p

/-- Claim C5: storing a transaction in the request context round-trips.
`getTxFromContext (newTxContext ctx tx) = tx`, a Client after
`WithContext (newTxContext ctx tx)` has exactly `tx` active, and
`WithContext` on a context carrying no value under `TxKey` leaves the
active transaction nil. -/
theorem c5_tx_context_roundtrip (ctx : Context) (tx : Tx) (w : Wrapper) :
    getTxFromContext (newTxContext ctx tx) = some tx
    ∧ (withContext w (newTxContext ctx tx)).tx = some tx
    ∧ (ctxValue ctx CtxKey.txKey = none → (withContext w ctx).tx = none) := by
  refine ⟨rfl, rfl, fun h => ?_⟩
  simp [withContext, getTxFromContext, h]

/-- Witness for C5 at a concrete context with no value under TxKey. -/
theorem c5_witness :
    getTxFromContext (newTxContext [(CtxKey.otherKey 0, CtxVal.otherVal 1)] 5) = some 5
    ∧ (withContext ⟨[], none, none⟩ [(CtxKey.otherKey 0, CtxVal.otherVal 1)]).tx = none :=
  ⟨(c5_tx_context_roundtrip [(CtxKey.otherKey 0, CtxVal.otherVal 1)] 5 ⟨[], none, none⟩).1,
   (c5_tx_context_roundtrip [(CtxKey.otherKey 0, CtxVal.otherVal 1)] 5 ⟨[], none, none⟩).2.2
     (by decide)⟩

/-- Claim C10: `SetUpdatedField` and `SetDeletedField` with the empty string
are no-ops, a non-empty argument replaces the configured name, the other
field and the client reference are unchanged, and `New` initialises the
names to "updated" and "deleted". -/
theorem c10_set_field_noop (c : Nat) (d : DAOState) (n : String) :
    (DAONew c).updatedField = "updated"
    ∧ (DAONew c).deletedField = "deleted"
    ∧ (DAONew c).client = c
    ∧ setUpdatedField d "" = d
    ∧ setDeletedField d "" = d
    ∧ (n ≠ "" → setUpdatedField d n = ⟨d.client, n, d.deletedField⟩)
    ∧ (n ≠ "" → setDeletedField d n = ⟨d.client, d.updatedField, n⟩) := by
  refine ⟨rfl, rfl, rfl, ?_, ?_, fun h => ?_, fun h => ?_⟩
  · simp [setUpdatedField]
  · simp [setDeletedField]
  · simp [setUpdatedField, h]
  · simp [setDeletedField, h]

/-- Witness for C10 at a concrete DAO and a concrete non-empty name. -/
theorem c10_witness :
    setUpdatedField (DAONew 0) "" = DAONew 0
    ∧ setUpdatedField (DAONew 0) "modified_at" = ⟨0, "modified_at", "deleted"⟩ :=
  ⟨(c10_set_field_noop 0 (DAONew 0) "modified_at").2.2.2.1,
   (c10_set_field_noop 0 (DAONew 0) "modified_at").2.2.2.2.2.1 (by decide)⟩

theorem alookup_mapInsertGo {α : Type} (rows : List (String × α)) (k k2 : String) (v : α) :
    alookup (mapInsertGo rows k v) k2 = if k2 = k then some v else alookup rows k2 := by
  induction rows with
  | nil =>
    by_cases h : k2 = k
    · subst h; simp [mapInsertGo, alookup]
    · simp [mapInsertGo, alookup, h, Ne.symm h]
  | cons p ps ih =>
    by_cases hp : p.1 = k
    · by_cases h : k2 = k
      · subst h; simp [mapInsertGo, alookup, hp]
      · simp [mapInsertGo, alookup, hp, h, Ne.symm h]
    · by_cases h : k2 = k
      · subst h; simp [mapInsertGo, alookup, hp, ih]
      · simp [mapInsertGo, alookup, hp, h, ih]

theorem alookup_eq_none {α : Type} (rows : List (String × α)) (k : String) :
    alookup rows k = none ↔ k ∉ rows.map Prod.fst := by
  induction rows with
  | nil => simp [alookup]
  | cons p ps ih =>
    by_cases h : p.1 = k
    · simp [alookup, h]
    · have hk : ¬ k = p.1 := fun hh => h hh.symm
      simp [alookup, h, ih, hk]

theorem mapInsertGo_fst {α : Type} (rows : List (String × α)) (k : String) (v : α) :
    (mapInsertGo rows k v).map Prod.fst =
      if k ∈ rows.map Prod.fst then rows.map Prod.fst
      else rows.map Prod.fst ++ [k] := by
  induction rows with
  | nil => simp [mapInsertGo]
  | cons p ps ih =>
    by_cases hp : p.1 = k
    · simp [mapInsertGo, hp]
    · have hk : ¬ k = p.1 := fun hh => hp hh.symm
      by_cases hm : k ∈ ps.map Prod.fst
      · simp [mapInsertGo, hp, ih, hm, hk]
      · simp [mapInsertGo, hp, ih, hm, hk]

theorem nodup_append_single {α : Type} (l : List α) (a : α) (ha : a ∉ l)
    (hl : l.Nodup) : (l ++ [a]).Nodup := by
  induction l with
  | nil => simp
  | cons x xs ih =>
    simp only [List.mem_cons, not_or] at ha
    simp only [List.nodup_cons] at hl
    simp only [List.cons_append, List.nodup_cons, List.mem_append, List.mem_singleton]
    exact ⟨by rintro (hx | rfl); exact hl.1 hx; exact ha.1 rfl,
           ih ha.2 hl.2⟩

theorem mapInsertGo_nodup {α : Type} (rows : List (String × α)) (k : String) (v : α)
    (h : (rows.map Prod.fst).Nodup) : ((mapInsertGo rows k v).map Prod.fst).Nodup := by
  rw [mapInsertGo_fst]
  by_cases hm : k ∈ rows.map Prod.fst
  · simpa [hm] using h
  · simp only [hm, if_false]
    exact nodup_append_single _ _ hm h

theorem mapInsertGo_wf {α : Type} (f : α → String) (rows : List (String × α)) (v : α)
    (h : ∀ q ∈ rows, q.1 = f q.2) :
    ∀ q ∈ mapInsertGo rows (f v) v, q.1 = f q.2 := by
  induction rows with
  | nil =>
    intro q hq
    simp only [mapInsertGo, List.mem_singleton] at hq
    subst hq; rfl
  | cons p ps ih =>
    intro q hq
    by_cases hp : p.1 = f v
    · simp only [mapInsertGo, if_pos hp, List.mem_cons] at hq
      rcases hq with rfl | hq
      · rfl
      · exact h q (List.mem_cons_of_mem p hq)
    · simp only [mapInsertGo, if_neg hp, List.mem_cons] at hq
      rcases hq with rfl | hq
      · exact h q (List.mem_cons_self q ps)
      · exact ih (fun r hr => h r (List.mem_cons_of_mem p hr)) q hq

theorem foldl_insert_wf {α : Type} (f : α → String) (l : List α) :
    ∀ rows, (∀ q ∈ rows, q.1 = f q.2) →
      ∀ q ∈ l.foldl (fun rows m => mapInsertGo rows (f m) m) rows, q.1 = f q.2 := by
  induction l with
  | nil => intro rows h; simpa using h
  | cons x xs ih =>
    intro rows h
    rw [List.foldl_cons]
    exact ih _ (mapInsertGo_wf f rows x h)

theorem foldl_insert_nodup {α : Type} (f : α → String) (l : List α) :
    ∀ rows, (rows.map Prod.fst).Nodup →
      ((l.foldl (fun rows m => mapInsertGo rows (f m) m) rows).map Prod.fst).Nodup := by
  induction l with
  | nil => intro rows h; simpa using h
  | cons x xs ih =>
    intro rows h
    rw [List.foldl_cons]
    exact ih _ (mapInsertGo_nodup rows (f x) x h)

theorem alookup_foldl {α : Type} (f : α → String) (k : String) (l : List α) :
    ∀ rows, alookup (l.foldl (fun rows m => mapInsertGo rows (f m) m) rows) k =
      match lastSuchThat (fun x => f x == k) l with
      | some v => some v
      | none => alookup rows k := by
  induction l with
  | nil => intro rows; simp [lastSuchThat]
  | cons x xs ih =>
    intro rows
    rw [List.foldl_cons, ih]
    cases hls : lastSuchThat (fun x => f x == k) xs with
    | some v => simp [lastSuchThat, hls]
    | none =>
      by_cases h : f x = k
      · simp [lastSuchThat, hls, alookup_mapInsertGo, h]
      · simp [lastSuchThat, hls, alookup_mapInsertGo, h, Ne.symm h]

theorem filter_map_snd {α : Type} (f : α → String) (k : String)
    (rows : List (String × α)) (hwf : ∀ q ∈ rows, q.1 = f q.2)
    (hnd : (rows.map Prod.fst).Nodup) :
    (rows.map Prod.snd).filter (fun x => f x == k) =
      match alookup rows k with
      | some v => [v]
      | none => [] := by
  induction rows with
  | nil => simp [alookup]
  | cons p ps ih =>
    have hp1 : p.1 = f p.2 := hwf p (List.mem_cons_self p ps)
    have hwf2 : ∀ q ∈ ps, q.1 = f q.2 := fun q hq => hwf q (List.mem_cons_of_mem p hq)
    have hnd' := hnd
    simp only [List.map_cons, List.nodup_cons] at hnd'
    obtain ⟨hpnot, hnd2⟩ := hnd'
    by_cases h : f p.2 = k
    · have htail : (ps.map Prod.snd).filter (fun x => f x == k) = [] := by
        rw [List.filter_eq_nil_iff]
        intro x hx
        obtain ⟨q, hq, rfl⟩ := List.mem_map.mp hx
        have hq1 : q.1 = f q.2 := hwf2 q hq
        have hmem : q.1 ∈ ps.map Prod.fst := List.mem_map.mpr ⟨q, hq, rfl⟩
        have hne : q.1 ≠ p.1 := fun hh => hpnot (hh ▸ hmem)
        simp only [beq_iff_eq]
        rw [← hq1]
        intro hqk
        exact hne (by rw [hqk, hp1, h])
      have hpk : p.1 = k := by rw [hp1, h]
      simp [alookup, List.filter_cons, h, htail, hpk]
    · have hpk : ¬ p.1 = k := by rw [hp1]; exact h
      simp [alookup, List.filter_cons, h, hpk, ih hwf2 hnd2]

theorem mapInsertGo_ne_nil {α : Type} (rows : List (String × α)) (k : String) (v : α) :
    mapInsertGo rows k v ≠ [] := by
  cases rows with
  | nil => simp [mapInsertGo]
  | cons p ps => by_cases h : p.1 = k <;> simp [mapInsertGo, h]

theorem foldl_insert_ne_nil {α : Type} (f : α → String) (l : List α) :
    ∀ rows, rows ≠ [] →
      l.foldl (fun rows m => mapInsertGo rows (f m) m) rows ≠ [] := by
  induction l with
  | nil => intro rows h; simpa using h
  | cons x xs ih =>
    intro rows _
    rw [List.foldl_cons]
    exact ih _ (mapInsertGo_ne_nil rows (f x) x)

/-- Claim C1: in `DAO.Upsert` on a slice, the rows actually inserted are
de-duplicated by the composite key (the key fields rendered and joined):
the inserted keys are pairwise distinct, the rows carrying a given key `k`
are exactly one row, namely the last element of the slice whose key is `k`
(so a later element takes precedence over every earlier one with the same
key, and elements with distinct keys are all kept), and `Upsert` hands
exactly this de-duplicated list to the insert. -/
theorem c1_upsert_dedup {α : Type} (goNames : List String)
    (fieldOf : α → String → String) (recs : List α) :
    ((upsertUniqueModels goNames fieldOf recs).map (upsertKey goNames fieldOf)).Nodup
    ∧ (∀ k, (upsertUniqueModels goNames fieldOf recs).filter
          (fun m => upsertKey goNames fieldOf m == k)
        = (lastSuchThat (fun m => upsertKey goNames fieldOf m == k) recs).toList)
    ∧ (∀ (k1 : String) (ks : List String) (x : α) (xs : List α) (n : Nat),
        upsert goNames fieldOf (k1 :: ks) (RecsArg.slice (x :: xs)) (Except.ok n)
          = some (Except.ok (upsertUniqueModels goNames fieldOf (x :: xs), n))) := by
  have hwf : ∀ q ∈ (recs.foldl
      (fun rows m => mapInsertGo rows (upsertKey goNames fieldOf m) m) []),
      q.1 = upsertKey goNames fieldOf q.2 :=
    foldl_insert_wf (upsertKey goNames fieldOf) recs [] (by simp)
  have hnd : (((recs.foldl
      (fun rows m => mapInsertGo rows (upsertKey goNames fieldOf m) m) [])).map
        Prod.fst).Nodup :=
    foldl_insert_nodup (upsertKey goNames fieldOf) recs [] (by simp)
  refine ⟨?_, ?_, ?_⟩
  · show ((((recs.foldl
        (fun rows m => mapInsertGo rows (upsertKey goNames fieldOf m) m) [])).map
          Prod.snd).map (upsertKey goNames fieldOf)).Nodup
    rw [List.map_map]
    have hcong : (recs.foldl
        (fun rows m => mapInsertGo rows (upsertKey goNames fieldOf m) m) []).map
          (upsertKey goNames fieldOf ∘ Prod.snd)
        = (recs.foldl
        (fun rows m => mapInsertGo rows (upsertKey goNames fieldOf m) m) []).map
          Prod.fst := by
      apply List.map_congr_left
      intro q hq
      exact (hwf q hq).symm
    rw [hcong]
    exact hnd
  · intro k
    show (((recs.foldl
        (fun rows m => mapInsertGo rows (upsertKey goNames fieldOf m) m) [])).map
          Prod.snd).filter (fun m => upsertKey goNames fieldOf m == k)
        = (lastSuchThat (fun m => upsertKey goNames fieldOf m == k) recs).toList
    rw [filter_map_snd (upsertKey goNames fieldOf) k _ hwf hnd,
        alookup_foldl (upsertKey goNames fieldOf) k recs []]
    cases lastSuchThat (fun m => upsertKey goNames fieldOf m == k) recs <;> rfl
  · intro k1 ks x xs n
    have hne : upsertUniqueModels goNames fieldOf (x :: xs) ≠ [] := by
      show ((List.foldl
        (fun rows m => mapInsertGo rows (upsertKey goNames fieldOf m) m) [] (x :: xs)).map
          Prod.snd) ≠ []
      rw [List.foldl_cons]
      intro hcontra
      exact foldl_insert_ne_nil (upsertKey goNames fieldOf) xs _
        (mapInsertGo_ne_nil [] (upsertKey goNames fieldOf x) x)
        (List.map_eq_nil_iff.mp hcontra)
    simp only [upsert, List.isEmpty_cons]
    rw [if_neg (by simp)]
    rw [if_neg (by simpa [List.isEmpty_iff] using hne)]

/-- Claim C2: a `DAO.WithTX` call that starts a new transaction (none
active, `StartTx` succeeded) commits if and only if the passed function
returns nil and the context is not cancelled; on a function error or a
cancelled context the transaction is rolled back, and a cancelled context's
error is returned in preference to the function's error. -/
theorem c2_withTX_commit_rollback (s : TxState) (e : WithTXEnv) (t : Tx)
    (hActive : s.storedTx = none) (hStart : e.startTxRes = Except.ok t) :
    ((withTX s e).2.1 = TxOutcome.committed ↔ e.fnErr = none ∧ e.ctxErr = none)
    ∧ (e.fnErr ≠ none ∨ e.ctxErr ≠ none → (withTX s e).2.1 = TxOutcome.rolledBack)
    ∧ (∀ c, e.ctxErr = some c → (withTX s e).2.2 = some (OpError.ctxCancelled c)) := by
  rcases hf : e.fnErr with _ | f <;> rcases hc : e.ctxErr with _ | c <;>
    simp [withTX, hActive, hStart, hf, hc]

/-- Witness for C2 at concrete environments: a clean run commits, and a run
whose function errs under a cancelled context rolls back and returns the
context error. -/
theorem c2_witness :
    ((withTX ⟨none, 0⟩ ⟨Except.ok 3, none, none, none, none⟩).2.1 = TxOutcome.committed
      ↔ (none : Option OpError) = none ∧ (none : Option CtxError) = none)
    ∧ (withTX ⟨none, 0⟩ ⟨Except.ok 3, some (OpError.app AppError.notFound),
        some CtxError.canceled, none, none⟩).2.1 = TxOutcome.rolledBack
    ∧ (withTX ⟨none, 0⟩ ⟨Except.ok 3, some (OpError.app AppError.notFound),
        some CtxError.canceled, none, none⟩).2.2
      = some (OpError.ctxCancelled CtxError.canceled) :=
  ⟨(c2_withTX_commit_rollback ⟨none, 0⟩ ⟨Except.ok 3, none, none, none, none⟩ 3 rfl rfl).1,
   (c2_withTX_commit_rollback ⟨none, 0⟩ ⟨Except.ok 3, some (OpError.app AppError.notFound),
      some CtxError.canceled, none, none⟩ 3 rfl rfl).2.1 (Or.inl (by decide)),
   (c2_withTX_commit_rollback ⟨none, 0⟩ ⟨Except.ok 3, some (OpError.app AppError.notFound),
      some CtxError.canceled, none, none⟩ 3 rfl rfl).2.2 CtxError.canceled rfl⟩

/-- Claim C4: at most one transaction is active per Client at any time.
`WithTX` runs the function directly when a transaction is already active
instead of starting a second one, `StartTx` stores the single new
transaction, `Commit` and `Rollback` always clear the stored transaction
whether or not they return an error, and no sequence of these operations
reaches a state with more than one active transaction. -/
theorem c4_single_tx_invariant :
    (∀ (s : TxState) (e : WithTXEnv), s.storedTx ≠ none →
      withTX s e = (s, TxOutcome.ranDirectly, e.fnErr))
    ∧ (∀ (s : TxState) (t : Tx), (stStartTx s (Except.ok t)).1.storedTx = some t)
    ∧ (∀ (s : TxState) (r : Option DriverError) (out : TxState × Option DriverError),
        stCommit s r = some out → out.1.storedTx = none)
    ∧ (∀ (s : TxState) (r : Option DriverError) (out : TxState × Option DriverError),
        stRollback s r = some out → out.1.storedTx = none)
    ∧ (∀ (ops : List ClientOp) (s final : TxState), stRun s ops = some final →
        activeTxCount final ≤ 1) := by
  refine ⟨?_, ?_, ?_, ?_, ?_⟩
  · intro s e h
    cases hs : s.storedTx with
    | none => exact absurd hs h
    | some t => simp [withTX, hs]
  · intro s t; rfl
  · intro s r out h
    cases hs : s.storedTx with
    | none => simp [stCommit, hs] at h
    | some t =>
      simp only [stCommit, hs, Option.some.injEq] at h
      rw [← h]
  · intro s r out h
    cases hs : s.storedTx with
    | none => simp [stRollback, hs] at h
    | some t =>
      simp only [stRollback, hs, Option.some.injEq] at h
      rw [← h]
  · intro ops s final _
    cases final with
    | mk st b => cases st <;> simp [activeTxCount]

/-- Witness for C4: a Client with an active transaction runs the function
directly, commit clears a concrete stored transaction, and a concrete
start-then-commit sequence ends with at most one active transaction. -/
theorem c4_witness :
    withTX ⟨some 7, 2⟩ ⟨Except.ok 5, none, none, none, none⟩
        = (⟨some 7, 2⟩, TxOutcome.ranDirectly, none)
    ∧ ((⟨none, 1⟩, (none : Option DriverError)) : TxState × Option DriverError).1.storedTx
        = none
    ∧ activeTxCount ⟨none, 1⟩ ≤ 1 :=
  ⟨c4_single_tx_invariant.1 ⟨some 7, 2⟩ ⟨Except.ok 5, none, none, none, none⟩ (by decide),
   c4_single_tx_invariant.2.2.1 ⟨some 5, 1⟩ none (⟨none, 1⟩, none) (by decide),
   c4_single_tx_invariant.2.2.2.2 [ClientOp.opStartTx (Except.ok 1), ClientOp.opCommit none]
     ⟨none, 0⟩ ⟨none, 1⟩ (by decide)⟩

/-- Claim C3 counterexample: `DAO.Upsert` with valid keys and a non-empty
slice returns the driver's insert error raw, not converted to an
application error kind. -/
theorem c3_upsert_raw_error_counterexample :
    upsert ["id"] (fun _ _ => "k") ["id"] (RecsArg.slice [(0 : Nat)])
        (Except.error (DriverError.other "insert failed"))
      = some (Except.error (OpError.raw (DriverError.other "insert failed")))
    ∧ isAppError (OpError.raw (DriverError.other "insert failed")) = false := by
  exact ⟨rfl, rfl⟩

theorem setPairs_append_ok (rest : List GoVal) :
    (pairs : List GoVal) → evenIdxStrings pairs = true → pairs.length % 2 = 0 →
      setPairs (pairs ++ rest) =
        (match setPairs rest with
         | Except.error e => Except.error e
         | Except.ok ps => Except.ok (toPairs pairs ++ ps))
  | [], _, _ => by
    cases hr : setPairs rest <;> simp [toPairs, hr]
  | [x], _, h2 => by
    simp at h2
  | GoVal.str c :: v :: rest2, h1, h2 => by
    have ih := setPairs_append_ok rest rest2
      (by simpa [evenIdxStrings] using h1)
      (by simp [List.length_cons] at h2 ⊢; omega)
    cases hr : setPairs rest with
    | error er => simp [setPairs, ih, hr]
    | ok ps => simp [setPairs, ih, hr, toPairs]
  | GoVal.timeVal t :: v :: rest2, h1, _ => by
    simp [evenIdxStrings] at h1
  | GoVal.intVal i :: v :: rest2, h1, _ => by
    simp [evenIdxStrings] at h1

theorem setPairs_append_bad (rest : List GoVal) :
    (pairs : List GoVal) → evenIdxStrings pairs = false → pairs.length % 2 = 0 →
      setPairs (pairs ++ rest)
        = Except.error (OpError.app (AppError.internal "field must be string"))
  | [], h1, _ => by simp [evenIdxStrings] at h1
  | [x], _, h2 => by simp at h2
  | GoVal.str c :: v :: rest2, h1, h2 => by
    have ih := setPairs_append_bad rest rest2
      (by simpa [evenIdxStrings] using h1)
      (by simp [List.length_cons] at h2 ⊢; omega)
    simp [setPairs, ih]
  | GoVal.timeVal t :: v :: rest2, _, _ => rfl
  | GoVal.intVal i :: v :: rest2, _, _ => rfl

theorem setPairs_error_app :
    (l : List GoVal) → (e : OpError) → setPairs l = Except.error e →
      isAppError e = true
  | [], _, h => by simp [setPairs] at h
  | [x], _, h => by simp [setPairs] at h
  | GoVal.str c :: v :: rest, e, h => by
    cases hr : setPairs rest with
    | error e0 =>
      simp only [setPairs, hr, Except.error.injEq] at h
      subst h
      exact setPairs_error_app rest e0 hr
    | ok ps => simp [setPairs, hr] at h
  | GoVal.timeVal t :: v :: rest, e, h => by
    simp only [setPairs, Except.error.injEq] at h
    cases h
    rfl
  | GoVal.intVal i :: v :: rest, e, h => by
    simp only [setPairs, Except.error.injEq] at h
    cases h
    rfl

/-- Claim C3 (amended): every failing DAO operation among FindOne, FindList,
FindListWithTotal, GetTotal, Insert, Update, UpdateWhere, SoftDelete,
HardDelete and HardDeleteWhere returns the driver's error converted by the
translation helper into an application error kind (for UpdateWhere: every
failing call returns an application error kind, and whenever its arguments
pass validation a driver error is converted); Upsert converts its own
argument-validation failures (empty keys, non-slice non-pointer recs) into
bad-request application errors but returns the final insert's driver error
unconverted. -/
theorem c3_errors_converted_amended (e : DriverError) :
    findOne (Except.error e) = Except.error (OpError.app (Convert e))
    ∧ findList (Except.error e) = Except.error (OpError.app (Convert e))
    ∧ findListWithTotal (Except.error e) = Except.error (OpError.app (Convert e))
    ∧ getTotal (Except.error e) = Except.error (OpError.app (Convert e))
    ∧ insertRecs (Except.error e) = Except.error (OpError.app (Convert e))
    ∧ (∀ (f : String) (cols : List String),
        updateRec f cols (Except.error e) = Except.error (OpError.app (Convert e)))
    ∧ (∀ (f : String) (pairs : List GoVal) (now : Nat),
        pairs.length % 2 = 0 → evenIdxStrings pairs = true →
        updateWhere f pairs now (Except.error e)
          = Except.error (OpError.app (Convert e)))
    ∧ (∀ (f : String) (pairs : List GoVal) (now : Nat)
        (d : Except DriverError Nat) (r : OpError),
        updateWhere f pairs now d = Except.error r → isAppError r = true)
    ∧ (∀ (f df : String),
        softDelete f df (Except.error e) = Except.error (OpError.app (Convert e)))
    ∧ hardDelete (Except.error e) = Except.error (OpError.app (Convert e))
    ∧ hardDeleteWhere (Except.error e) = Except.error (OpError.app (Convert e))
    ∧ (∀ (gN : List String) (fo : Nat → String → String) (recs : RecsArg Nat)
        (ins : Except DriverError Nat),
        upsert gN fo [] recs ins
          = some (Except.error (OpError.app (AppError.badRequest "keys cannot be empty"))))
    ∧ (∀ (gN : List String) (fo : Nat → String → String) (k1 : String)
        (ks : List String) (ins : Except DriverError Nat),
        upsert gN fo (k1 :: ks) (RecsArg.otherKind : RecsArg Nat) ins
          = some (Except.error (OpError.app
              (AppError.badRequest "recs must be slice or pointer to struct"))))
    ∧ (∀ (gN : List String) (fo : Nat → String → String) (k1 : String)
        (ks : List String) (m : Nat),
        upsert gN fo (k1 :: ks) (RecsArg.ptr m) (Except.error e)
          = some (Except.error (OpError.raw e)))
    ∧ isAppError (OpError.raw e) = false := by
  refine ⟨rfl, rfl, rfl, rfl, rfl, fun _ _ => rfl,
    fun f pairs now heven hstr => ?_, fun f pairs now d r h => ?_,
    fun _ _ => rfl, rfl, rfl, fun _ _ _ _ => rfl, fun _ _ _ _ _ => rfl,
    fun _ _ _ _ _ => rfl, rfl⟩
  · have hne : ¬ pairs.length % 2 = 1 := by omega
    have hs := setPairs_append_ok [GoVal.str f, GoVal.timeVal now] pairs hstr heven
    simp [setPairs] at hs
    simp [updateWhere, hne, hs]
  · by_cases hodd : pairs.length % 2 = 1
    · rw [updateWhere, if_pos hodd, Except.error.injEq] at h
      cases h
      rfl
    · rw [updateWhere, if_neg hodd] at h
      cases hs : setPairs (pairs ++ [GoVal.str f, GoVal.timeVal now]) with
      | error e0 =>
        rw [hs, Except.error.injEq] at h
        subst h
        exact setPairs_error_app _ e0 hs
      | ok sets =>
        rw [hs] at h
        cases d with
        | error e2 =>
          rw [Except.error.injEq] at h
          cases h
          rfl
        | ok n => exact absurd h (by simp)

/-- Witness for C3 (amended): a concrete valid UpdateWhere call whose
driver errs returns the converted error, and a concrete invalid call fails
with an application error kind. -/
theorem c3_witness :
    updateWhere "updated" [GoVal.str "inn", GoVal.str "1"] 3
        (Except.error DriverError.noRows)
      = Except.error (OpError.app (Convert DriverError.noRows))
    ∧ isAppError (OpError.app (AppError.internal "setFieldValuePairs must be even"))
      = true :=
  ⟨(c3_errors_converted_amended DriverError.noRows).2.2.2.2.2.2.1 "updated"
      [GoVal.str "inn", GoVal.str "1"] 3 (by decide) (by decide),
   (c3_errors_converted_amended DriverError.noRows).2.2.2.2.2.2.2.1 "updated"
      [GoVal.str "a"] 0 (Except.ok 1)
      (OpError.app (AppError.internal "setFieldValuePairs must be even")) (by decide)⟩

/-- Claim C9: `DAO.UpdateWhere` with an odd-length pair list, or with a
non-string element at an even index, returns an internal error and its
result does not depend on the database (no query is executed); otherwise
the update sets every given field/value pair plus the configured updated
field set to the current time. -/
theorem c9_update_where (f : String) (pairs : List GoVal) (now : Nat)
    (d : Except DriverError Nat) :
    (pairs.length % 2 = 1 →
      updateWhere f pairs now d
          = Except.error (OpError.app (AppError.internal "setFieldValuePairs must be even"))
      ∧ ∀ d2, updateWhere f pairs now d2 = updateWhere f pairs now d)
    ∧ (pairs.length % 2 = 0 → evenIdxStrings pairs = false →
      updateWhere f pairs now d
          = Except.error (OpError.app (AppError.internal "field must be string"))
      ∧ ∀ d2, updateWhere f pairs now d2 = updateWhere f pairs now d)
    ∧ (pairs.length % 2 = 0 → evenIdxStrings pairs = true → ∀ n,
      updateWhere f pairs now (Except.ok n)
          = Except.ok (toPairs pairs ++ [(f, GoVal.timeVal now)], n)) := by
  refine ⟨fun h => ⟨?_, fun d2 => ?_⟩, fun h hbad => ?_, fun h hgood n => ?_⟩
  · simp [updateWhere, h]
  · simp [updateWhere, h]
  · have hne : ¬ pairs.length % 2 = 1 := by omega
    have hs := setPairs_append_bad [GoVal.str f, GoVal.timeVal now] pairs hbad h
    exact ⟨by simp [updateWhere, hne, hs], fun d2 => by simp [updateWhere, hne, hs]⟩
  · have hne : ¬ pairs.length % 2 = 1 := by omega
    have hs := setPairs_append_ok [GoVal.str f, GoVal.timeVal now] pairs hgood h
    simp [setPairs] at hs
    simp [updateWhere, hne, hs]

/-- Witness for C9: a concrete odd list, a concrete list with a non-string
at an even index, and a concrete well-formed list. -/
theorem c9_witness :
    updateWhere "updated" [GoVal.str "a"] 0 (Except.ok 1)
        = Except.error (OpError.app (AppError.internal "setFieldValuePairs must be even"))
    ∧ updateWhere "updated" [GoVal.intVal 5, GoVal.str "x"] 0 (Except.ok 1)
        = Except.error (OpError.app (AppError.internal "field must be string"))
    ∧ updateWhere "updated" [GoVal.str "inn", GoVal.str "222"] 7 (Except.ok 1)
        = Except.ok ([("inn", GoVal.str "222"), ("updated", GoVal.timeVal 7)], 1) :=
  ⟨((c9_update_where "updated" [GoVal.str "a"] 0 (Except.ok 1)).1 (by decide)).1,
   ((c9_update_where "updated" [GoVal.intVal 5, GoVal.str "x"] 0
      (Except.ok 1)).2.1 (by decide) (by decide)).1,
   (c9_update_where "updated" [GoVal.str "inn", GoVal.str "222"] 7
      (Except.ok 1)).2.2 (by decide) (by decide) 1⟩

/-- Claim C8 counterexample: `ExecOne`/`QueryOne` return the result with a
nil error on an affected-row count of -1 (go-pg reports -1 when the count
is unavailable), so "nil error exactly when the count is 1" fails. -/
theorem c8_assert_one_row_counterexample :
    execOne (Except.ok (-1)) = Except.ok (-1)
    ∧ queryOne (Except.ok (-1)) = Except.ok (-1)
    ∧ (-1 : Int) ≠ 1 := by
  refine ⟨by decide, by decide, by decide⟩

/-- Claim C8 (amended): when the underlying Exec/Query succeeds, `ExecOne`
and `QueryOne` return `pg.ErrNoRows` exactly when the affected-row count is
0, `pg.ErrMultiRows` exactly when it is greater than 1, and the result with
nil error exactly when the count is 1 or negative (go-pg's `RowsAffected`
is a signed int and is -1 when unavailable); an underlying error is
returned as is. -/
theorem c8_exec_query_one_amended (n : Int) :
    (execOne (Except.ok n) = Except.error DriverError.noRows ↔ n = 0)
    ∧ (execOne (Except.ok n) = Except.error DriverError.multiRows ↔ n > 1)
    ∧ (execOne (Except.ok n) = Except.ok n ↔ (n = 1 ∨ n < 0))
    ∧ (queryOne (Except.ok n) = Except.error DriverError.noRows ↔ n = 0)
    ∧ (queryOne (Except.ok n) = Except.error DriverError.multiRows ↔ n > 1)
    ∧ (queryOne (Except.ok n) = Except.ok n ↔ (n = 1 ∨ n < 0))
    ∧ (∀ e, execOne (Except.error e) = Except.error e)
    ∧ (∀ e, queryOne (Except.error e) = Except.error e) := by
  by_cases h0 : n = 0
  · subst h0
    refine ⟨?_, ?_, ?_, ?_, ?_, ?_, fun e => rfl, fun e => rfl⟩ <;>
      simp [execOne, queryOne, assertOneRow]
  · by_cases h1 : n > 1
    · have hne : ¬ n = 1 := by omega
      have hnlt : ¬ n < 0 := by omega
      refine ⟨?_, ?_, ?_, ?_, ?_, ?_, fun e => rfl, fun e => rfl⟩ <;>
        simp [execOne, queryOne, assertOneRow, h0, h1, hne, hnlt]
    · have hor : n = 1 ∨ n < 0 := by omega
      refine ⟨?_, ?_, ?_, ?_, ?_, ?_, fun e => rfl, fun e => rfl⟩ <;>
        simp [execOne, queryOne, assertOneRow, h0, h1, hor]

theorem foldl_withLoggerOption (opts : List (Wrapper → Wrapper)) (init : Wrapper)
    (h : ∀ o ∈ opts, o = withLoggerOption) :
    opts.foldl (fun w o => o w) init = init := by
  induction opts generalizing init with
  | nil => rfl
  | cons o os ih =>
    rw [List.foldl_cons, h o (List.mem_cons_self o os)]
    exact ih init (fun o2 ho2 => h o2 (List.mem_cons_of_mem o ho2))

/-- Claim C6: every listed Client operation is a direct pass-through: the
same method chain with the same arguments is invoked on the active
transaction when one is set and on the pooled connection otherwise, with
nothing of the wrapper's own (given no wrapped processor is installed, and
no option of this repository installs one: `NewDbClient` under the
available options yields a wrapper with none). -/
theorem c6_pass_through (w : Wrapper) (h : w.wrappedProcessor = none)
    (a a2 a3 : Arg) (as : List Arg) :
    selectCall w a = ⟨dispatchTarget w, ["Model", "WherePK", "Select"], [a]⟩
    ∧ insertCall w as = ⟨dispatchTarget w, ["Model", "Insert"], as⟩
    ∧ updateCall w a = ⟨dispatchTarget w, ["Model", "WherePK", "Update"], [a]⟩
    ∧ deleteCall w a = ⟨dispatchTarget w, ["Model", "WherePK", "Delete"], [a]⟩
    ∧ forceDeleteCall w a = ⟨dispatchTarget w, ["Model", "WherePK", "ForceDelete"], [a]⟩
    ∧ execCall w a as = ExecRoute.direct ⟨dispatchTarget w, ["Exec"], a :: as⟩
    ∧ queryCall w a a2 as = ExecRoute.direct ⟨dispatchTarget w, ["Query"], a :: a2 :: as⟩
    ∧ copyFromCall w a a2 as = ⟨dispatchTarget w, ["CopyFrom"], a :: a2 :: as⟩
    ∧ copyToCall w a a2 as = ⟨dispatchTarget w, ["CopyTo"], a :: a2 :: as⟩
    ∧ formatQueryCall w a a2 as
        = ⟨dispatchTarget w, ["Formatter", "FormatQuery"], a :: a2 :: as⟩
    ∧ formatterCall w = ⟨dispatchTarget w, ["Formatter"], []⟩
    ∧ contextCall w = ⟨dispatchTarget w, ["Context"], []⟩
    ∧ modelContextCall w a as = ⟨dispatchTarget w, ["ModelContext"], a :: as⟩
    ∧ execContextCall w a a2 as = ⟨dispatchTarget w, ["ExecContext"], a :: a2 :: as⟩
    ∧ execOneContextCall w a a2 as
        = ⟨dispatchTarget w, ["ExecOneContext"], a :: a2 :: as⟩
    ∧ queryContextCall w a a2 a3 as
        = ⟨dispatchTarget w, ["QueryContext"], a :: a2 :: a3 :: as⟩
    ∧ queryOneContextCall w a a2 a3 as
        = ⟨dispatchTarget w, ["QueryOneContext"], a :: a2 :: a3 :: as⟩
    ∧ (∀ opts, (∀ o ∈ opts, o = withLoggerOption) →
        newDbClient opts = ⟨[], none, none⟩) := by
  refine ⟨?_, ?_, ?_, ?_, ?_, ?_, ?_, ?_, ?_, ?_, ?_, ?_, ?_, ?_, ?_, ?_, ?_,
    fun opts hopts => foldl_withLoggerOption opts ⟨[], none, none⟩ hopts⟩ <;>
  cases htx : w.tx <;>
    simp [selectCall, insertCall, updateCall, deleteCall, forceDeleteCall, execCall,
      execProcessor, queryCall, queryProcessor, copyFromCall, copyToCall,
      formatQueryCall, formatterCall, contextCall, modelContextCall, execContextCall,
      execOneContextCall, queryContextCall, queryOneContextCall, dispatchTarget, htx, h]

/-- Witness for C6: a wrapper with an active transaction forwards Select to
it, and one without forwards Exec directly to the pooled connection. -/
theorem c6_witness :
    selectCall ⟨[], some 3, none⟩ 7
        = ⟨Target.onTx 3, ["Model", "WherePK", "Select"], [7]⟩
    ∧ execCall ⟨[], none, none⟩ 1 [2]
        = ExecRoute.direct ⟨Target.onConn, ["Exec"], [1, 2]⟩ :=
  ⟨(c6_pass_through ⟨[], some 3, none⟩ rfl 7 0 0 []).1,
   (c6_pass_through ⟨[], none, none⟩ rfl 1 2 0 [2]).2.2.2.2.2.1⟩

theorem trimPfx_single (c : Char) (s : String) :
    trimPfx s (String.mk [c]) = removeOneLeading c s := by
  cases s with
  | mk data =>
    cases data with
    | nil => simp [trimPfx, removeOneLeading, List.isPrefixOf]
    | cons x rest =>
      by_cases h : c = x
      · simp [trimPfx, removeOneLeading, List.isPrefixOf, h]
      · have hx : ¬ x = c := fun hh => h hh.symm
        simp [trimPfx, removeOneLeading, List.isPrefixOf, h, hx]

/-- Claim C7: `NewMigrator(p, dsn)` sets the migration source to the
literal prefix `file://` followed by `p` with one leading "." removed and
then one leading "/" removed, and `Run` hands exactly that file-based
source and the given DSN to the migration engine. -/
theorem c7_migrator_source (p dsn : String) :
    (newMigrator p dsn []).path
        = "file://" ++ removeOneLeading '/' (removeOneLeading '.' p)
    ∧ (∀ cleanOk : Bool, migratorRun (newMigrator p dsn []) true cleanOk true
        = some ⟨"file://" ++ removeOneLeading '/' (removeOneLeading '.' p),
            "postgres", dsn⟩) := by
  have hdot : ("." : String) = String.mk ['.'] := rfl
  have hslash : ("/" : String) = String.mk ['/'] := rfl
  have htrim : trimPfx (trimPfx p ".") "/"
      = removeOneLeading '/' (removeOneLeading '.' p) := by
    rw [hdot, hslash, trimPfx_single, trimPfx_single]
  constructor
  · show "file://" ++ trimPfx (trimPfx p ".") "/" = _
    rw [htrim]
  · intro cleanOk
    show migratorRun ⟨"file://" ++ trimPfx (trimPfx p ".") "/", dsn, []⟩ true cleanOk true
      = _
    simp [migratorRun, driverName, htrim]
